import Mathlib

/-!
# Verification of the wagcextractor member-extraction pipeline

A shallow embedding of `src/server.js` (grwebdevs/wagcextractor): the
participant normalizer (`getParticipantId`), the participant collector, the
contact resolver, the entry classifier, the per-group extraction orchestrator
(`POST /extract`) and the export endpoint (`POST /export`), together with
proofs of the specified properties.

Modelling conventions:
* JavaScript values that the code inspects are modelled by small inductive
  types (`JVal`, `RawPart`, `PContainer`, `Json`) covering exactly the shape
  distinctions the source makes.
* JavaScript truthiness is modelled explicitly: `null`/`undefined`, `false`,
  and the empty string are falsy; `0`/`NaN` only arise where a modelled field
  could hold them and are folded into the falsy constructors.
* `a || b` on option-of-string values is `jsOrS`; the ternary
  `(x ? x : null)` on such values is `jsTernary`.
* External collaborators (`client.getChatById`, `client.getContactById`,
  `json2csv`, `XLSX`, the filesystem) are parameters or recorded effects.
* Floating point numbers do not occur in any modelled payload (export rows
  are flat string records per the data model), so the JSON embedding has no
  number constructor.
-/

/-- JavaScript `a || b` restricted to string-or-nullish values: the left
operand is returned when truthy (a non-empty string), otherwise the right. -/
def jsOrS (a b : Option String) : Option String :=
  match a with
  | some s => if s = "" then b else some s
  | none => b

/-- JavaScript `(x ? x : null)` on a string-or-nullish value. -/
def jsTernary (a : Option String) : Option String :=
  match a with
  | some s => if s = "" then none else some s
  | none => none

/-- Truthiness of a string-or-nullish value (`Boolean(x)`). -/
def jsTruthyS (a : Option String) : Bool :=
  match a with
  | some s => !(s == "")
  | none => false

/-- First-occurrence deduplication with an explicit seen-set accumulator;
`jsDedup` below instantiates it to model `[...new Set(xs)]`, which keeps the
first occurrence of each element in insertion order. -/
def dedupAux : List String → List String → List String
  | [], _ => []
  | x :: xs, seen => if x ∈ seen then dedupAux xs seen else x :: dedupAux xs (x :: seen)

/-- `[...new Set(xs)]` (line 173): first occurrences, in order. -/
def jsDedup (l : List String) : List String := dedupAux l []

/-- `rawParticipants.filter(Boolean)` (line 172): at that point the list holds
strings and nulls; the truthy survivors are the non-empty strings. -/
def dropFalsy (l : List (Option String)) : List String :=
  l.filterMap (fun o =>
    match o with
    | some s => if s = "" then none else some s
    | none => none)

/-- `haystack.includes(needle)` on strings: substring containment. -/
def includesAux (pat : List Char) : List Char → Bool
  | [] => pat.isPrefixOf ([] : List Char)
  | c :: t => pat.isPrefixOf (c :: t) || includesAux pat t

/-- JavaScript `s.includes(pat)`. -/
def strIncludes (s pat : String) : Bool := includesAux pat.data s.data

/-- `s.replace(pat, "")` with a string pattern deletes only the first
occurrence of `pat`. -/
def replaceFirstAux (pat : List Char) : List Char → List Char
  | [] => []
  | c :: t =>
    if pat.isPrefixOf (c :: t) then (c :: t).drop pat.length
    else c :: replaceFirstAux pat t

/-- JavaScript `s.replace(pat, "")` (first occurrence only, line 205). -/
def jsReplaceFirst (s pat : String) : String := ⟨replaceFirstAux pat.data s.data⟩

/-- ASCII lowering of one character, as `toLowerCase` acts on the format
strings the export endpoint compares against. -/
def lowerChar (c : Char) : Char :=
  if 65 ≤ c.toNat ∧ c.toNat ≤ 90 then Char.ofNat (c.toNat + 32) else c

/-- JavaScript `s.toLowerCase()` on the ASCII format keywords. -/
def strToLowerJs (s : String) : String := ⟨s.data.map lowerChar⟩

/-!
## The participant normalizer (`getParticipantId`, lines 81-87)

A raw participant is `null`/`undefined`/other falsy, a string, or an object.
Of an object the source only inspects the fields `id` and `_serialized`; a
field value is itself a string, or an object of which only `_serialized` is
inspected, or absent.
-/

/-- The value of an object field the normalizer inspects: a string, or an
object (of which only its own `_serialized` member is ever read). Truthy
non-string non-object field values behave exactly like `vObj none` here
(truthy, `_serialized` undefined), so they are folded into it. -/
inductive JVal where
  | vStr (s : String)
  | vObj (ser : Option JVal)

/-- Truthiness of a field value: objects are truthy, a string is truthy iff
non-empty. -/
def jvTruthy : JVal → Bool
  | .vStr s => !(s == "")
  | .vObj _ => true

/-- Reading `._serialized` off a field value: on a string it is undefined. -/
def serOf : JVal → Option JVal
  | .vStr _ => none
  | .vObj s => s

/-- A raw participant as the normalizer receives it. `pFalsy` covers
`null`, `undefined`, `false`, `0`, `NaN`; `pObj` is any (truthy) object with
its `id` and `_serialized` fields. -/
inductive RawPart where
  | pFalsy
  | pStr (s : String)
  | pObj (id : Option JVal) (ser : Option JVal)

/-- Line 84: `part.id && typeof part.id._serialized === "string"` — the
nested serialized identifier, when `part.id` is truthy and exposes a string
`_serialized`. -/
def nestedId (idf : Option JVal) : Option String :=
  match idf with
  | some idv =>
    if jvTruthy idv then
      match serOf idv with
      | some (.vStr t) => some t
      | _ => none
    else none
  | none => none

/-- Line 85: `part._serialized && typeof part._serialized === "string"` —
note the truthiness conjunct rejects the empty string. -/
def topId (serf : Option JVal) : Option String :=
  match serf with
  | some (.vStr t) => if t = "" then none else some t
  | _ => none

/-- `getParticipantId` (lines 81-87): falsy input gives null; a string is
returned as-is (the falsy check already rejected `""`); otherwise the nested
then the top-level serialized identifier is tried; else null. -/
def getParticipantId : RawPart → Option String
  | .pFalsy => none
  | .pStr s => if s = "" then none else some s
  | .pObj idf serf =>
    match nestedId idf with
    | some t => some t
    | none => topId serf

/-!
## The participant collector (lines 151-173)
-/

/-- The shape of `chat.participants`: an array, a map-like object exposing a
`keys()` function (and `values()`), a plain object (its `Object.values` are
enumerated), or anything else (nullish or a primitive). The `keys()` of the
map-like collections the source targets are identifier strings. -/
inductive PContainer where
  | arr (elems : List RawPart)
  | collection (keys : List String) (values : List RawPart)
  | obj (values : List RawPart)
  | other

/-- A chat object as the extractor reads it. `groupMetadata = some ps` models
a truthy `chat.groupMetadata` whose `.participants` is an array; any other
combination is observationally `none` for the collector. -/
structure Chat where
  name : Option String
  participants : PContainer
  groupMetadata : Option (List RawPart)

/-- Lines 151-170: the raw candidate list, before `filter(Boolean)`. In the
non-empty-`keys()` branch the keys are used directly (they are strings, hence
tagged `some`); every other branch maps through `getParticipantId`. -/
def collectRaw (chat : Chat) : List (Option String) :=
  match chat.participants with
  | .arr es => es.map getParticipantId
  | .collection ks vs =>
    if ks.length = 0 then vs.map getParticipantId else ks.map some
  | .obj vs => vs.map getParticipantId
  | .other =>
    match chat.groupMetadata with
    | some ps => ps.map getParticipantId
    | none => []

/-- Lines 151-173 in full: collect, drop falsy candidates, deduplicate. -/
def collect (chat : Chat) : List String :=
  jsDedup (dropFalsy (collectRaw chat))

/-!
## The contact resolver (lines 176-195)
-/

/-- The fields of a contact object that the display-name policy reads. -/
structure Contact where
  pushname : Option String
  name : Option String
  number : Option String
deriving DecidableEq, Repr

/-- Outcome of `client.getContactById`: the promise fulfils (possibly with a
nullish contact) or rejects. -/
inductive LookupOutcome where
  | found (c : Option Contact)
  | failed
deriving DecidableEq, Repr

/-- The object each contact promise fulfils with (lines 178-187):
`{ id, name, ok }`. -/
structure ResolvedParticipant where
  id : Option String
  name : Option String
  ok : Bool
deriving DecidableEq, Repr

/-- One contact lookup (lines 179-187). On fulfilment the display name is
`contact?.pushname || contact?.name || (contact?.number ? contact.number :
null) || null`; on rejection the catch handler yields `{id, name: null,
ok: false}`. The ids reaching this map are strings (the collector's
`filter(Boolean)` output), so the `typeof id !== "string"` guard of line 178
never fires in the model. -/
def resolveOne (env : String → LookupOutcome) (id : String) : ResolvedParticipant :=
  match env id with
  | .found c =>
    { id := some id
      name :=
        jsOrS
          (jsOrS (jsOrS (c.bind Contact.pushname) (c.bind Contact.name))
            (jsTernary (c.bind Contact.number)))
          none
      ok := true }
  | .failed => { id := some id, name := none, ok := false }

/-- Lines 191-195: every wrapped promise fulfils (each has its own `.catch`),
so `Promise.allSettled` yields exactly the fulfilment values in order; the
final filter `p => p && p.id` keeps entries with a truthy id. -/
def resolveStep (env : String → LookupOutcome) (ids : List String) :
    List ResolvedParticipant :=
  (ids.map (resolveOne env)).filter (fun p => jsTruthyS p.id)

/-!
## The entry classifier and per-group aggregation (lines 198-220)
-/

/-- An element of a per-group `numbers` array: `{number, name}` (line 206). -/
structure NumberEntry where
  number : String
  name : String
deriving DecidableEq, Repr

/-- An element of a per-group `hiddenIds` array: `{id, name}` (line 210). -/
structure HiddenEntry where
  id : String
  name : String
deriving DecidableEq, Repr

/-- A combined-view entry as pushed onto `allEntries` (lines 207, 211);
`number` is only present on the `"number"` branch. -/
structure ExtractionEntry where
  groupId : String
  groupName : String
  name : String
  number : Option String
  id : String
  type : String
deriving DecidableEq, Repr

/-- The classification loop of lines 201-213, producing the `numbers` and
`hidden` arrays and this group's `allEntries` contributions in order. Every
`p` reaching the loop has a truthy `p.id` (the filter of line 195), so the
`none` branch is unreachable; it is given the effect-free value. -/
def classifyLoop (gid gName : String) :
    List ResolvedParticipant → List NumberEntry × List HiddenEntry × List ExtractionEntry
  | [] => ([], [], [])
  | p :: rest =>
    let (ns, hs, es) := classifyLoop gid gName rest
    match p.id with
    | none => (ns, hs, es)
    | some id =>
      let displayName := jsOrS p.name none
      if strIncludes id "@c.us" then
        let cleanNumber := jsReplaceFirst id "@c.us"
        let nm := (jsOrS displayName (some cleanNumber)).getD cleanNumber
        (⟨cleanNumber, nm⟩ :: ns, hs,
          ⟨gid, gName, nm, some cleanNumber, id, "number"⟩ :: es)
      else
        let nm := (jsOrS displayName (some id)).getD id
        (ns, ⟨id, nm⟩ :: hs,
          ⟨gid, gName, nm, none, id, "hidden"⟩ :: es)

/-- One per-request group result (lines 215-227). -/
structure GroupResult where
  groupId : String
  groupName : String
  numbers : List NumberEntry
  hiddenIds : List HiddenEntry
  error : Option String
deriving DecidableEq, Repr

/-- The external collaborators of the extraction pipeline. A chat fetch
either yields a chat or rejects; the `String` of `Except.error` is the
stringification `String(err)` of the rejected value recorded at line 226. -/
structure FetchEnv where
  getChatById : String → Except String Chat
  getContactById : String → LookupOutcome

/-- The body of one iteration of the per-group loop (lines 144-227): fetch
the chat, collect, resolve, classify; on a fetch failure push an error
result with empty arrays. Returns the group's result and its contribution to
`allEntries`. -/
def extractGroup (env : FetchEnv) (gid : String) :
    GroupResult × List ExtractionEntry :=
  match env.getChatById gid with
  | .error e =>
    ({ groupId := gid, groupName := gid, numbers := [], hiddenIds := [],
       error := some e }, [])
  | .ok chat =>
    let gName := (jsOrS chat.name (some gid)).getD gid
    let ids := collect chat
    let resolved := resolveStep env.getContactById ids
    let (ns, hs, es) := classifyLoop gid gName resolved
    ({ groupId := gid, groupName := gName, numbers := ns, hiddenIds := hs,
       error := none }, es)

/-- The sequential per-group loop: one `GroupResult` appended per input id,
`allEntries` accumulated across groups in processing order. -/
def extractAll (env : FetchEnv) (gids : List String) :
    List GroupResult × List ExtractionEntry :=
  match gids with
  | [] => ([], [])
  | g :: rest =>
    let (r, es) := extractGroup env g
    let (rs, es') := extractAll env rest
    (r :: rs, es ++ es')

/-!
## The `/extract` route handler and shared server state (lines 19-21, 133-238)
-/

/-- The module-level mutable state of the server (lines 19-21). -/
structure ServerState where
  qrCodeData : Option String
  isAuthenticated : Bool
  groupsCache : List Chat

/-- `req.body.selectedGroups` as the handler receives it: a single string or
an array of strings (or absent, covered by `Option`). -/
inductive SelectedGroups where
  | one (g : String)
  | many (gs : List String)
deriving DecidableEq, Repr

/-- The response of the `/extract` handler. -/
inductive ExtractResponse where
  | redirect (loc : String)
  | render (perGroupResults : List GroupResult) (all : List ExtractionEntry)
      (numbers : List ExtractionEntry) (hidden : List ExtractionEntry)
deriving DecidableEq, Repr

/-- The `/extract` handler (lines 133-238), threaded through the server
state it reads. An unauthenticated request redirects to `/`; a falsy
`selectedGroups` (absent or the empty string) redirects to `/groups`; a
single string is wrapped into a one-element array; the combined views are
derived from `allEntries` by filtering on `type`. -/
def extractHandler (st : ServerState) (env : FetchEnv)
    (sel : Option SelectedGroups) : ServerState × ExtractResponse :=
  if st.isAuthenticated = false then (st, .redirect "/")
  else
    let run := fun (gids : List String) =>
      let (per, all) := extractAll env gids
      (st, ExtractResponse.render per all
        (all.filter (fun e => e.type = "number"))
        (all.filter (fun e => e.type = "hidden")))
    match sel with
    | none => (st, .redirect "/groups")
    | some (.one g) => if g = "" then (st, .redirect "/groups") else run [g]
    | some (.many gs) => run gs

/-!
## JSON values and the export endpoint (lines 241-296)

`req.body.payload` reaches the handler as a parsed JSON value (or a
double-encoded JSON string, re-parsed at line 253). Export rows are flat
string records (§3 of the data model), so no number constructor is needed.
-/

/-- A parsed JSON value as the export endpoint manipulates it. -/
inductive Json where
  | jnull
  | jbool (b : Bool)
  | jstr (s : String)
  | jarr (elems : List Json)
  | jobj (fields : List (String × Json))

/-- JavaScript truthiness of a JSON value (`[]` and `{}` are truthy). -/
def jsonTruthy : Json → Bool
  | .jnull => false
  | .jbool b => b
  | .jstr s => !(s == "")
  | .jarr _ => true
  | .jobj _ => true

/-- The `2 * level` spaces of one indentation step of
`JSON.stringify(v, null, 2)`. -/
def indentChars (n : Nat) : List Char := List.replicate (2 * n) ' '

/-- Lower-case hexadecimal digit character for `n < 16`. -/
def hexDigitChar (n : Nat) : Char :=
  if n < 10 then Char.ofNat (48 + n) else Char.ofNat (87 + n)

/-- One character as `JSON.stringify` quotes it: `"` and `\` are escaped,
the common control characters get short escapes, the remaining control
characters become `\u00xx`, everything else is verbatim. -/
def escapeJsonChar (c : Char) : List Char :=
  if c = '"' then ['\\', '"']
  else if c = '\\' then ['\\', '\\']
  else if c = Char.ofNat 8 then ['\\', 'b']
  else if c = Char.ofNat 9 then ['\\', 't']
  else if c = Char.ofNat 10 then ['\\', 'n']
  else if c = Char.ofNat 12 then ['\\', 'f']
  else if c = Char.ofNat 13 then ['\\', 'r']
  else if c.toNat < 32 then
    ['\\', 'u', '0', '0', hexDigitChar (c.toNat / 16), hexDigitChar (c.toNat % 16)]
  else [c]

/-- A quoted JSON string literal. -/
def stringifyStr (s : String) : List Char :=
  '"' :: (s.data.flatMap escapeJsonChar ++ ['"'])

mutual

/-- `JSON.stringify(v, null, 2)` as a character list: two-space pretty
printing, one element or member per line, empty composites on one line. -/
def stringifyVal (ind : Nat) : Json → List Char
  | .jnull => 'n' :: 'u' :: 'l' :: 'l' :: []
  | .jbool true => 't' :: 'r' :: 'u' :: 'e' :: []
  | .jbool false => 'f' :: 'a' :: 'l' :: 's' :: 'e' :: []
  | .jstr s => stringifyStr s
  | .jarr [] => '[' :: ']' :: []
  | .jarr (x :: xs) =>
    '[' :: '\n' ::
      (stringifyItems (ind + 1) (x :: xs) ++ '\n' :: (indentChars ind ++ [']']))
  | .jobj [] => '{' :: '}' :: []
  | .jobj (f :: fs) =>
    '{' :: '\n' ::
      (stringifyProps (ind + 1) (f :: fs) ++ '\n' :: (indentChars ind ++ ['}']))

/-- The element lines of a non-empty array, separated by `",\n"`. -/
def stringifyItems (ind : Nat) : List Json → List Char
  | [] => []
  | [x] => indentChars ind ++ stringifyVal ind x
  | x :: y :: ys =>
    indentChars ind ++ stringifyVal ind x ++ ',' :: '\n' :: stringifyItems ind (y :: ys)

/-- The member lines of a non-empty object, `"key": value`, separated by
`",\n"`. -/
def stringifyProps (ind : Nat) : List (String × Json) → List Char
  | [] => []
  | [f] => indentChars ind ++ stringifyStr f.1 ++ ':' :: ' ' :: stringifyVal ind f.2
  | f :: g :: gs =>
    indentChars ind ++ stringifyStr f.1 ++ ':' :: ' ' :: stringifyVal ind f.2 ++
      ',' :: '\n' :: stringifyProps ind (g :: gs)

end

/-- `JSON.stringify(v, null, 2)` (line 287). -/
def jsonStringify2 (v : Json) : String := ⟨stringifyVal 0 v⟩

/-- What follows an element line inside a printed array: nothing after the
last element, otherwise the `",\n"` separator and the remaining lines. -/
def itemsTail (ind : Nat) : List Json → List Char
  | [] => []
  | y :: ys => ',' :: '\n' :: stringifyItems ind (y :: ys)

/-- What follows a member line inside a printed object. -/
def propsTail (ind : Nat) : List (String × Json) → List Char
  | [] => []
  | g :: gs => ',' :: '\n' :: stringifyProps ind (g :: gs)

/-- JSON whitespace. -/
def isWsChar (c : Char) : Bool := c == ' ' || c == '\n' || c == '\t' || c == '\r'

/-- Skip leading JSON whitespace. -/
def jsonSkipWs : List Char → List Char
  | [] => []
  | c :: t => if isWsChar c then jsonSkipWs t else c :: t

/-- Value of one hexadecimal digit character. -/
def jsonHexVal (c : Char) : Option Nat :=
  if 48 ≤ c.toNat ∧ c.toNat ≤ 57 then some (c.toNat - 48)
  else if 97 ≤ c.toNat ∧ c.toNat ≤ 102 then some (c.toNat - 87)
  else if 65 ≤ c.toNat ∧ c.toNat ≤ 70 then some (c.toNat - 55)
  else none

/-- Decode one short escape character. -/
def jsonUnescape (e : Char) : Option Char :=
  if e = '"' then some '"'
  else if e = '\\' then some '\\'
  else if e = '/' then some '/'
  else if e = 'b' then some (Char.ofNat 8)
  else if e = 'f' then some (Char.ofNat 12)
  else if e = 'n' then some (Char.ofNat 10)
  else if e = 'r' then some (Char.ofNat 13)
  else if e = 't' then some (Char.ofNat 9)
  else none

/-- Parse a string body after the opening quote, up to and over the closing
quote; `\uXXXX` escapes are accepted for scalar values (surrogate pairs do
not arise from Unicode-scalar strings, which is what the printer emits). -/
def parseStrBody : List Char → Option (List Char × List Char)
  | [] => none
  | c :: t =>
    if c = '"' then some ([], t)
    else if c = '\\' then
      match t with
      | [] => none
      | e :: t2 =>
        if e = 'u' then
          match t2 with
          | a :: b :: c3 :: d :: t3 =>
            match jsonHexVal a, jsonHexVal b, jsonHexVal c3, jsonHexVal d with
            | some va, some vb, some vc, some vd =>
              let n := ((va * 16 + vb) * 16 + vc) * 16 + vd
              if n < 55296 ∨ (57344 ≤ n ∧ n < 1114112) then
                match parseStrBody t3 with
                | some (cs, r) => some (Char.ofNat n :: cs, r)
                | none => none
              else none
            | _, _, _, _ => none
          | _ => none
        else
          match jsonUnescape e with
          | some ec =>
            match parseStrBody t2 with
            | some (cs, r) => some (ec :: cs, r)
            | none => none
          | none => none
    else
      match parseStrBody t with
      | some (cs, r) => some (c :: cs, r)
      | none => none

mutual

/-- Fuel-bounded JSON value parser (`JSON.parse` restricted to the
number-free grammar the modelled payloads inhabit). -/
def parseJsonVal (fuel : Nat) (s : List Char) : Option (Json × List Char) :=
  match fuel with
  | 0 => none
  | fuel + 1 =>
    match jsonSkipWs s with
    | 'n' :: 'u' :: 'l' :: 'l' :: r => some (.jnull, r)
    | 't' :: 'r' :: 'u' :: 'e' :: r => some (.jbool true, r)
    | 'f' :: 'a' :: 'l' :: 's' :: 'e' :: r => some (.jbool false, r)
    | '"' :: r =>
      match parseStrBody r with
      | some (cs, r2) => some (.jstr ⟨cs⟩, r2)
      | none => none
    | '[' :: r =>
      match jsonSkipWs r with
      | [] => none
      | c :: r2 =>
        if c = ']' then some (.jarr [], r2)
        else
          match parseJsonItems fuel (c :: r2) with
          | some (vs, r3) => some (.jarr vs, r3)
          | none => none
    | '{' :: r =>
      match jsonSkipWs r with
      | [] => none
      | c :: r2 =>
        if c = '}' then some (.jobj [], r2)
        else
          match parseJsonProps fuel (c :: r2) with
          | some (fs, r3) => some (.jobj fs, r3)
          | none => none
    | _ => none

/-- One-or-more comma-separated array elements, consuming the closing `]`. -/
def parseJsonItems (fuel : Nat) (s : List Char) : Option (List Json × List Char) :=
  match fuel with
  | 0 => none
  | fuel + 1 =>
    match parseJsonVal fuel s with
    | some (v, r) =>
      match jsonSkipWs r with
      | ',' :: r2 =>
        match parseJsonItems fuel r2 with
        | some (vs, r3) => some (v :: vs, r3)
        | none => none
      | ']' :: r2 => some ([v], r2)
      | _ => none
    | none => none

/-- One-or-more comma-separated object members, consuming the closing `}`. -/
def parseJsonProps (fuel : Nat) (s : List Char) :
    Option (List (String × Json) × List Char) :=
  match fuel with
  | 0 => none
  | fuel + 1 =>
    match jsonSkipWs s with
    | '"' :: r =>
      match parseStrBody r with
      | some (kcs, r1) =>
        match jsonSkipWs r1 with
        | ':' :: r2 =>
          match parseJsonVal fuel r2 with
          | some (v, r3) =>
            match jsonSkipWs r3 with
            | ',' :: r4 =>
              match parseJsonProps fuel r4 with
              | some (fs, r5) => some ((⟨kcs⟩, v) :: fs, r5)
              | none => none
            | '}' :: r4 => some ([(⟨kcs⟩, v)], r4)
            | _ => none
          | none => none
        | _ => none
      | none => none
    | _ => none

end

/-- `JSON.parse` on a complete document: one value, then only trailing
whitespace. The input's length bounds every recursion the document can
demand, so it serves as fuel. -/
def jsonParse (s : String) : Option Json :=
  match parseJsonVal (s.data.length + 1) s.data with
  | some (v, r) => if jsonSkipWs r = [] then some v else none
  | none => none

/-!
## The `/export` handler (lines 246-296)
-/

/-- Filesystem and collaborator effects the handler performs, in order.
`json2csv` and `XLSX` serialization happen inside the respective write
effects and are external collaborators, so the rows handed over are
recorded; the JSON branch's artifact is computed by the source itself
(`JSON.stringify(payload, null, 2)`) and recorded verbatim. -/
inductive ExportEffect where
  | ensureDir
  | writeCsv (rows : List Json)
  | writeXlsx (rows : List Json)
  | writeJson (content : String)

/-- The handler's response. -/
inductive ExportResult where
  | notAuthenticated
  | badRequest (msg : String)
  | download (fmt : String)

/-- Line 257: `(req.body.format || "csv").toLowerCase()`. -/
def effectiveFormat (format0 : Option String) : String :=
  strToLowerJs (match format0 with
    | some f => if f = "" then "csv" else f
    | none => "csv")

/-- Lines 252-254: a string payload is itself parsed as JSON. -/
def effectivePayload : Json → Option Json
  | .jstr s => jsonParse s
  | p => some p

/-- The `/export` handler (lines 246-296) with its effect trace. Validation:
falsy payload, then JSON re-parse of string payloads, then the
non-empty-array check; the `try` block begins with `fs.ensureDir` and only
then dispatches on the format. -/
def exportHandler (authed : Bool) (payload0 : Option Json)
    (format0 : Option String) : ExportResult × List ExportEffect :=
  if authed = false then (.notAuthenticated, [])
  else
    match payload0 with
    | none => (.badRequest "No payload", [])
    | some p0 =>
      if jsonTruthy p0 = false then (.badRequest "No payload", [])
      else
        match effectivePayload p0 with
        | none => (.badRequest "Invalid payload JSON", [])
        | some p =>
          match p with
          | .jarr (r :: rs) =>
            let format := effectiveFormat format0
            if format = "csv" then
              (.download "csv", [.ensureDir, .writeCsv (r :: rs)])
            else if format = "xlsx" then
              (.download "xlsx", [.ensureDir, .writeXlsx (r :: rs)])
            else if format = "json" then
              (.download "json",
                [.ensureDir, .writeJson (jsonStringify2 (.jarr (r :: rs)))])
            else (.badRequest "Unsupported format", [.ensureDir])
          | _ => (.badRequest "Payload must be non-empty array", [])

/-!
## Concrete instances used by witnesses
-/

/-- A concrete chat with one phone-number participant and one hidden
participant. -/
def chatW : Chat :=
  { name := some "Team"
    participants :=
      .arr [.pStr "111@c.us", .pObj (some (.vObj (some (.vStr "abc@lid")))) none]
    groupMetadata := none }

/-- A concrete collaborator environment: fetching `"G2"` succeeds with
`chatW`, every other id rejects; every contact lookup succeeds with a
pushname. -/
def envW : FetchEnv :=
  { getChatById := fun g =>
      if g = "G2" then .ok chatW else .error "Error: getChatById failed"
    getContactById := fun _ => .found (some ⟨some "Alice", none, none⟩) }

/-- A contact environment in which every lookup rejects. -/
def envFailAll : String → LookupOutcome := fun _ => .failed

/-- A concrete one-row export payload shaped like an `ExtractionEntry`. -/
def exportRowsW : List Json :=
  [Json.jobj [("groupId", .jstr "G1"), ("groupName", .jstr "Team"),
    ("name", .jstr "Alice"), ("number", .jstr "111"),
    ("id", .jstr "111@c.us"), ("type", .jstr "number")]]

/-!
## Supporting lemmas
-/

theorem mem_dedupAux : ∀ (l seen : List String) (a : String),
    a ∈ dedupAux l seen ↔ (a ∈ l ∧ a ∉ seen) := by
  intro l
  induction l with
  | nil => simp [dedupAux]
  | cons x xs ih =>
    intro seen a
    by_cases hx : x ∈ seen
    · simp only [dedupAux, if_pos hx, ih, List.mem_cons]
      constructor
      · rintro ⟨h1, h2⟩; exact ⟨Or.inr h1, h2⟩
      · rintro ⟨h1 | h1, h2⟩
        · exact absurd (h1 ▸ hx) h2
        · exact ⟨h1, h2⟩
    · simp only [dedupAux, if_neg hx, List.mem_cons, ih]
      constructor
      · rintro (rfl | ⟨h1, h2⟩)
        · exact ⟨Or.inl rfl, hx⟩
        · refine ⟨Or.inr h1, fun hc => h2 ?_⟩
          simp [List.mem_cons, hc]
      · rintro ⟨rfl | h1, h2⟩
        · exact Or.inl rfl
        · by_cases hax : a = x
          · exact Or.inl hax
          · exact Or.inr ⟨h1, by simp [List.mem_cons, hax, h2]⟩

theorem nodup_dedupAux : ∀ (l seen : List String), (dedupAux l seen).Nodup := by
  intro l
  induction l with
  | nil => intro seen; simp [dedupAux]
  | cons x xs ih =>
    intro seen
    by_cases hx : x ∈ seen
    · simpa [dedupAux, if_pos hx] using ih seen
    · simp only [dedupAux, if_neg hx, List.nodup_cons]
      refine ⟨fun hc => ?_, ih (x :: seen)⟩
      exact ((mem_dedupAux xs (x :: seen) x).mp hc).2 (by simp)

theorem jsDedup_nodup (l : List String) : (jsDedup l).Nodup := nodup_dedupAux l []

theorem mem_jsDedup (l : List String) (a : String) : a ∈ jsDedup l ↔ a ∈ l := by
  simpa [jsDedup] using mem_dedupAux l [] a

theorem jsDedup_toFinset (l : List String) : (jsDedup l).toFinset = l.toFinset := by
  apply Finset.ext
  intro a
  simp [List.mem_toFinset, mem_jsDedup]

theorem collect_nodup (chat : Chat) : (collect chat).Nodup := jsDedup_nodup _

theorem collect_toFinset (chat : Chat) :
    (collect chat).toFinset = (dropFalsy (collectRaw chat)).toFinset :=
  jsDedup_toFinset _

theorem dropFalsy_perm {l1 l2 : List (Option String)} (h : l1.Perm l2) :
    (dropFalsy l1).Perm (dropFalsy l2) := List.Perm.filterMap _ h

theorem dropFalsy_all_none : ∀ l : List (Option String),
    (∀ o ∈ l, o = none) → dropFalsy l = [] := by
  intro l
  induction l with
  | nil => intro _; rfl
  | cons o t ih =>
    intro h
    have ho : o = none := h o (by simp)
    subst ho
    simpa [dropFalsy] using ih (fun x hx => h x (by simp [hx]))

theorem jsOrS_none_ne_empty (a : Option String) : jsOrS a none ≠ some "" := by
  cases a with
  | none => simp [jsOrS]
  | some s =>
    by_cases hs : s = "" <;> simp [jsOrS, hs]

theorem jsOrS_none_eq {a : Option String} (h : a ≠ some "") : jsOrS a none = a := by
  cases a with
  | none => rfl
  | some s =>
    have hs : s ≠ "" := fun hc => h (by rw [hc])
    simp [jsOrS, hs]

/-!
## C8 — the participant normalizer
-/

/-- Claim C8, counterexample: an object whose top-level `_serialized` field
is the empty string. It is a string, so the claim's clause (d) requires it
to be returned, but the source's truthiness conjunct
(`part._serialized && ...`) rejects it and the normalizer returns null. -/
theorem c8_normalizer_counterexample :
    getParticipantId (RawPart.pObj none (some (JVal.vStr ""))) = none ∧
    getParticipantId (RawPart.pObj none (some (JVal.vStr ""))) ≠ some "" := by
  constructor
  · rfl
  · intro h
    simp [getParticipantId, nestedId, topId] at h

/-- Claim C8, amended: the normalizer returns, in priority order, null for
falsy input (including the empty string, which is falsy); a non-empty string
unchanged; the nested serialized identifier whenever `id` exposes one as a
string; the top-level serialized identifier when it is a *non-empty* string;
otherwise null. (The unamended claim read clause (d) as accepting every
string; the code's truthiness guard rejects the empty one.) The function is
total over every input shape, so no exception is possible. -/
theorem c8_normalizer_amended :
    getParticipantId RawPart.pFalsy = none ∧
    getParticipantId (RawPart.pStr "") = none ∧
    (∀ s, s ≠ "" → getParticipantId (RawPart.pStr s) = some s) ∧
    (∀ idf serf t, nestedId idf = some t →
      getParticipantId (RawPart.pObj idf serf) = some t) ∧
    (∀ idf t, nestedId idf = none → t ≠ "" →
      getParticipantId (RawPart.pObj idf (some (JVal.vStr t))) = some t) ∧
    (∀ idf serf, nestedId idf = none → topId serf = none →
      getParticipantId (RawPart.pObj idf serf) = none) ∧
    (∀ t, nestedId (some (JVal.vObj (some (JVal.vStr t)))) = some t) := by
  refine ⟨rfl, rfl, ?_, ?_, ?_, ?_, ?_⟩
  · intro s hs; simp [getParticipantId, hs]
  · intro idf serf t h; simp [getParticipantId, h]
  · intro idf t h ht; simp [getParticipantId, h, topId, ht]
  · intro idf serf h1 h2; simp [getParticipantId, h1, h2]
  · intro t; simp [nestedId, jvTruthy, serOf]

/-- Witness for C8 at concrete inputs: a plain id string, a nested
serialized id, and an unrecognizable shape. -/
theorem c8_normalizer_witness :
    getParticipantId (RawPart.pStr "123@c.us") = some "123@c.us" ∧
    getParticipantId
      (RawPart.pObj (some (JVal.vObj (some (JVal.vStr "A@lid")))) none)
      = some "A@lid" ∧
    getParticipantId (RawPart.pObj none none) = none :=
  ⟨c8_normalizer_amended.2.2.1 "123@c.us" (by decide),
   c8_normalizer_amended.2.2.2.1 _ none "A@lid" rfl,
   c8_normalizer_amended.2.2.2.2.2.1 none none rfl rfl⟩

/-!
## C4 — the participant collector's shape dispatch
-/

/-- Claim C4: the collector attempts, in order — array (normalize each
element); map-like with non-empty keys (use the keys); map-like with empty
keys (normalize its values); plain object (normalize its values); else the
nested group-metadata participant array — then drops falsy candidates and
deduplicates; with no matching shape or nothing extractable the result is
the empty list rather than an error (the function is total). -/
theorem c4_collector :
    (∀ nm es gm,
      collect ⟨nm, .arr es, gm⟩ = jsDedup (dropFalsy (es.map getParticipantId))) ∧
    (∀ nm k ks vs gm,
      collect ⟨nm, .collection (k :: ks) vs, gm⟩
        = jsDedup (dropFalsy ((k :: ks).map some))) ∧
    (∀ nm vs gm,
      collect ⟨nm, .collection [] vs, gm⟩
        = jsDedup (dropFalsy (vs.map getParticipantId))) ∧
    (∀ nm vs gm,
      collect ⟨nm, .obj vs, gm⟩ = jsDedup (dropFalsy (vs.map getParticipantId))) ∧
    (∀ nm ps,
      collect ⟨nm, .other, some ps⟩
        = jsDedup (dropFalsy (ps.map getParticipantId))) ∧
    (∀ nm, collect ⟨nm, .other, none⟩ = []) ∧
    (∀ chat, (collect chat).Nodup) ∧
    (∀ nm es gm, (∀ e ∈ es, getParticipantId e = none) →
      collect ⟨nm, .arr es, gm⟩ = []) := by
  refine ⟨fun _ _ _ => rfl, fun _ _ _ _ _ => rfl, fun _ _ _ => rfl,
    fun _ _ _ => rfl, fun _ _ => rfl, fun _ => rfl, collect_nodup, ?_⟩
  intro nm es gm h
  have hall : ∀ o ∈ es.map getParticipantId, o = none := by
    intro o ho
    obtain ⟨e, he, rfl⟩ := List.mem_map.mp ho
    exact h e he
  show jsDedup (dropFalsy (es.map getParticipantId)) = []
  rw [dropFalsy_all_none _ hall]
  rfl

/-- Witness for C4: the nothing-extractable conjunct at a concrete array of
unrecognizable participants, via the claim theorem. -/
theorem c4_collector_witness :
    collect ⟨some "G", .arr [RawPart.pFalsy, RawPart.pObj none none], none⟩ = [] :=
  c4_collector.2.2.2.2.2.2.2 (some "G") [RawPart.pFalsy, RawPart.pObj none none]
    none (by
      intro e he
      simp only [List.mem_cons, List.not_mem_nil, or_false] at he
      rcases he with rfl | rfl <;> rfl)

/-!
## C6 — order independence and set semantics of the collector
-/

/-- Claim C6: containers holding the same elements in different orders
collect to equal sets of canonical ids, and every collected list is
duplicate-free (set semantics). -/
theorem c6_collector_order_independence :
    (∀ nm nm' gm gm' es es', es.Perm es' →
      (collect ⟨nm, .arr es, gm⟩).toFinset
        = (collect ⟨nm', .arr es', gm'⟩).toFinset) ∧
    (∀ nm nm' gm gm' ks ks' vs vs', ks.Perm ks' → vs.Perm vs' →
      (collect ⟨nm, .collection ks vs, gm⟩).toFinset
        = (collect ⟨nm', .collection ks' vs', gm'⟩).toFinset) ∧
    (∀ nm nm' gm gm' vs vs', vs.Perm vs' →
      (collect ⟨nm, .obj vs, gm⟩).toFinset
        = (collect ⟨nm', .obj vs', gm'⟩).toFinset) ∧
    (∀ nm nm' ps ps', ps.Perm ps' →
      (collect ⟨nm, .other, some ps⟩).toFinset
        = (collect ⟨nm', .other, some ps'⟩).toFinset) ∧
    (∀ chat, (collect chat).Nodup) := by
  refine ⟨?_, ?_, ?_, ?_, collect_nodup⟩
  · intro nm nm' gm gm' es es' h
    rw [collect_toFinset, collect_toFinset]
    exact List.toFinset_eq_of_perm _ _ (dropFalsy_perm (h.map getParticipantId))
  · intro nm nm' gm gm' ks ks' vs vs' hk hv
    rw [collect_toFinset, collect_toFinset]
    rcases ks with _ | ⟨k0, kt⟩
    · have hk' : ks' = [] := hk.symm.eq_nil
      subst hk'
      exact List.toFinset_eq_of_perm _ _ (dropFalsy_perm (hv.map getParticipantId))
    · rcases ks' with _ | ⟨k0', kt'⟩
      · exact absurd hk.eq_nil (by simp)
      · simp only [collectRaw, List.length_cons]
        exact List.toFinset_eq_of_perm _ _ (dropFalsy_perm (hk.map some))
  · intro nm nm' gm gm' vs vs' h
    rw [collect_toFinset, collect_toFinset]
    exact List.toFinset_eq_of_perm _ _ (dropFalsy_perm (h.map getParticipantId))
  · intro nm nm' ps ps' h
    rw [collect_toFinset, collect_toFinset]
    exact List.toFinset_eq_of_perm _ _ (dropFalsy_perm (h.map getParticipantId))

/-- Witness for C6: a concrete reordered array container, via the claim
theorem. -/
theorem c6_collector_order_independence_witness :
    (collect ⟨none, .arr [RawPart.pStr "a@c.us", RawPart.pStr "b@lid"], none⟩).toFinset
      = (collect ⟨none, .arr [RawPart.pStr "b@lid", RawPart.pStr "a@c.us"], none⟩).toFinset :=
  c6_collector_order_independence.1 none none none none _ _
    (List.Perm.swap _ _ _)

/-!
## C9 — the extraction pipeline mutates no shared state
-/

/-- Claim C9: the `/extract` handler returns the server state it was given
unchanged — it reads the authenticated-session flag (and, via its
collaborators, nothing else of the state) and no step of collection,
resolution, classification or aggregation writes to the state. -/
theorem c9_frame (st : ServerState) (env : FetchEnv)
    (sel : Option SelectedGroups) : (extractHandler st env sel).1 = st := by
  unfold extractHandler
  by_cases h : st.isAuthenticated = false
  · simp [h]
  · simp only [if_neg h]
    rcases sel with _ | s
    · rfl
    · rcases s with g | gs
      · by_cases hg : g = "" <;> simp [hg]
      · simp

/-!
## C1 — the contact-resolution step
-/

theorem resolveOne_id (env : String → LookupOutcome) (i : String) :
    (resolveOne env i).id = some i := by
  cases h : env i <;> simp [resolveOne, h]

theorem resolveOne_failed (env : String → LookupOutcome) (i : String)
    (h : env i = .failed) : resolveOne env i = ⟨some i, none, false⟩ := by
  simp [resolveOne, h]

theorem resolveOne_name_ne_empty (env : String → LookupOutcome) (i : String) :
    (resolveOne env i).name ≠ some "" := by
  cases h : env i with
  | found c =>
    simp only [resolveOne, h]
    exact jsOrS_none_ne_empty _
  | failed => simp [resolveOne, h]

theorem resolveStep_eq_map (env : String → LookupOutcome) :
    ∀ ids : List String, (∀ i ∈ ids, i ≠ "") →
      resolveStep env ids = ids.map (resolveOne env) := by
  intro ids
  induction ids with
  | nil => intro _; rfl
  | cons x xs ih =>
    intro h
    have hx : x ≠ "" := h x (by simp)
    have hkeep : jsTruthyS (resolveOne env x).id = true := by
      rw [resolveOne_id]
      simp [jsTruthyS, hx]
    have htail := ih (fun i hi => h i (by simp [hi]))
    simp only [resolveStep, List.map_cons, List.filter_cons, hkeep, if_true]
    simp only [resolveStep] at htail
    rw [htail]

/-- Claim C1, counterexample: the empty string is a string, yet the
resolution step drops it — the final `filter(p => p && p.id)` rejects the
falsy id `""`, so the output has fewer entries than the input. -/
theorem c1_resolver_counterexample :
    (resolveStep envFailAll [""]).length = 0 ∧ ([""] : List String).length = 1 :=
  ⟨rfl, rfl⟩

/-- Claim C1, amended: for ids that are *non-empty* strings (which is what
the collector can ever hand over — its `filter(Boolean)` removes `""`), the
resolution step returns exactly one entry per input id in order (the final
filter drops nothing), and an id whose lookup rejects yields
`{id, name: null, ok: false}` — never dropped, and no failure disturbs the
other entries, which are computed independently per id. -/
theorem c1_resolver_amended (env : String → LookupOutcome) (ids : List String)
    (h : ∀ i ∈ ids, i ≠ "") :
    resolveStep env ids = ids.map (resolveOne env) ∧
    (resolveStep env ids).length = ids.length ∧
    (∀ i, (resolveOne env i).id = some i) ∧
    (∀ i, env i = .failed → resolveOne env i = ⟨some i, none, false⟩) := by
  refine ⟨resolveStep_eq_map env ids h, ?_, resolveOne_id env,
    fun i hi => resolveOne_failed env i hi⟩
  rw [resolveStep_eq_map env ids h, List.length_map]

/-- Witness for C1 at a concrete batch in which every lookup fails: both ids
are retained with null display names. -/
theorem c1_resolver_witness :
    resolveStep envFailAll ["a@c.us", "b@lid"]
      = [⟨some "a@c.us", none, false⟩, ⟨some "b@lid", none, false⟩] := by
  have h := c1_resolver_amended envFailAll ["a@c.us", "b@lid"] (by
    intro i hi
    simp only [List.mem_cons, List.not_mem_nil, or_false] at hi
    rcases hi with rfl | rfl <;> decide)
  rw [h.1]
  rfl

/-!
## C3 — the entry classifier
-/

theorem jsOrS_getD {pname : Option String} (hp : pname ≠ some "") (d : String) :
    (jsOrS pname (some d)).getD d = pname.getD d := by
  cases pname with
  | none => rfl
  | some s =>
    have hs : s ≠ "" := fun hc => hp (by rw [hc])
    simp [jsOrS, hs]

/-- Claim C3: classification of a resolved participant (whose display name,
as the resolver produces it, is never the present-but-empty string) emits:
for an id carrying the `"@c.us"` tag, a `"number"` entry whose `number` is
the id with the tag stripped and whose `name` is the display name when
present, else the stripped number; otherwise a `"hidden"` entry without a
number whose `name` falls back to the raw id. `number` is present iff the
type is `"number"`. -/
theorem c3_classifier (gid gName id : String) (pname : Option String)
    (okFlag : Bool) (rest : List ResolvedParticipant) (hp : pname ≠ some "") :
    ∃ e : ExtractionEntry,
      (classifyLoop gid gName (⟨some id, pname, okFlag⟩ :: rest)).2.2
        = e :: (classifyLoop gid gName rest).2.2 ∧
      (strIncludes id "@c.us" = true →
        e.type = "number" ∧ e.number = some (jsReplaceFirst id "@c.us") ∧
        e.name = pname.getD (jsReplaceFirst id "@c.us")) ∧
      (strIncludes id "@c.us" = false →
        e.type = "hidden" ∧ e.number = none ∧ e.name = pname.getD id) ∧
      ((e.number.isSome = true) ↔ e.type = "number") := by
  rcases hcl : classifyLoop gid gName rest with ⟨ns, hs, es⟩
  have hdn : jsOrS pname none = pname := jsOrS_none_eq hp
  cases hinc : strIncludes id "@c.us" with
  | true =>
    refine ⟨⟨gid, gName,
      (jsOrS (jsOrS pname none) (some (jsReplaceFirst id "@c.us"))).getD
        (jsReplaceFirst id "@c.us"),
      some (jsReplaceFirst id "@c.us"), id, "number"⟩, ?_, ?_, ?_, ?_⟩
    · simp [classifyLoop, hcl, hinc]
    · intro _
      refine ⟨rfl, rfl, ?_⟩
      show (jsOrS (jsOrS pname none) _).getD _ = _
      rw [hdn]
      exact jsOrS_getD hp _
    · intro hfalse; cases hfalse
    · simp
  | false =>
    refine ⟨⟨gid, gName, (jsOrS (jsOrS pname none) (some id)).getD id,
      none, id, "hidden"⟩, ?_, ?_, ?_, ?_⟩
    · simp [classifyLoop, hcl, hinc]
    · intro htrue; cases htrue
    · intro _
      refine ⟨rfl, rfl, ?_⟩
      show (jsOrS (jsOrS pname none) _).getD _ = _
      rw [hdn]
      exact jsOrS_getD hp _
    · constructor
      · intro hc; simp at hc
      · intro hc; simp at hc

/-- Witness for C3 at the specification's example: id `"1234567890@c.us"`
with no display name classifies as a number entry named by the stripped
number. -/
theorem c3_classifier_witness :
    ∃ e : ExtractionEntry,
      (classifyLoop "G" "G" [⟨some "1234567890@c.us", none, true⟩]).2.2 = [e] ∧
      e.type = "number" ∧ e.number = some "1234567890" ∧ e.name = "1234567890" := by
  obtain ⟨e, h1, h2, _, _⟩ :=
    c3_classifier "G" "G" "1234567890@c.us" none true [] (by simp)
  obtain ⟨ht, hn, hm⟩ := h2 (by decide)
  refine ⟨e, by simpa using h1, ht, ?_, ?_⟩
  · rw [hn]; rfl
  · rw [hm]; rfl

/-!
## C2 — the per-group orchestrator loop
-/

theorem classifyLoop_groupId (gid gName : String) :
    ∀ (rs : List ResolvedParticipant) e,
      e ∈ (classifyLoop gid gName rs).2.2 → e.groupId = gid := by
  intro rs
  induction rs with
  | nil => intro e he; simp [classifyLoop] at he
  | cons p rest ih =>
    intro e he
    rcases hcl : classifyLoop gid gName rest with ⟨ns, hs, es⟩
    cases hid : p.id with
    | none =>
      simp only [classifyLoop, hcl, hid] at he
      exact ih e (by rw [hcl]; exact he)
    | some i =>
      simp only [classifyLoop, hcl, hid] at he
      split at he <;>
        (rcases List.mem_cons.mp he with rfl | hmem
         · rfl
         · exact ih e (by rw [hcl]; exact hmem))

theorem extractGroup_fst_groupId (env : FetchEnv) (g : String) :
    (extractGroup env g).1.groupId = g := by
  cases hc : env.getChatById g with
  | error e => simp [extractGroup, hc]
  | ok chat =>
    rcases hcl : classifyLoop g ((jsOrS chat.name (some g)).getD g)
      (resolveStep env.getContactById (collect chat)) with ⟨ns, hs, es⟩
    simp [extractGroup, hc, hcl]

theorem extractGroup_error (env : FetchEnv) (g e : String)
    (h : env.getChatById g = .error e) :
    (extractGroup env g).1 = ⟨g, g, [], [], some e⟩ ∧
    (extractGroup env g).2 = [] := by
  constructor <;> simp [extractGroup, h]

theorem extractGroup_snd_ok (env : FetchEnv) (g : String) :
    ∀ ent ∈ (extractGroup env g).2,
      ent.groupId = g ∧ ∃ c, env.getChatById g = .ok c := by
  intro ent hent
  cases hc : env.getChatById g with
  | error e =>
    rw [(extractGroup_error env g e hc).2] at hent
    cases hent
  | ok chat =>
    revert hent
    rcases hcl : classifyLoop g ((jsOrS chat.name (some g)).getD g)
      (resolveStep env.getContactById (collect chat)) with ⟨ns, hs, es⟩
    intro hent
    simp only [extractGroup, hc, hcl] at hent
    exact ⟨classifyLoop_groupId _ _ _ ent (by rw [hcl]; exact hent), chat, rfl⟩

theorem extractAll_fst (env : FetchEnv) :
    ∀ gids : List String,
      (extractAll env gids).1 = gids.map (fun g => (extractGroup env g).1) := by
  intro gids
  induction gids with
  | nil => rfl
  | cons g rest ih =>
    rcases hg : extractGroup env g with ⟨r, es⟩
    rcases ha : extractAll env rest with ⟨rs, es'⟩
    simp only [extractAll, hg, ha, List.map_cons]
    rw [← ih, ha]

theorem extractAll_snd_ok (env : FetchEnv) :
    ∀ (gids : List String) ent, ent ∈ (extractAll env gids).2 →
      ∃ c, env.getChatById ent.groupId = .ok c := by
  intro gids
  induction gids with
  | nil => intro ent h; simp [extractAll] at h
  | cons g rest ih =>
    intro ent h
    rcases hg : extractGroup env g with ⟨r, es⟩
    rcases ha : extractAll env rest with ⟨rs, es'⟩
    simp only [extractAll, hg, ha] at h
    rcases List.mem_append.mp h with h1 | h2
    · obtain ⟨hgid, c, hc⟩ := extractGroup_snd_ok env g ent (by rw [hg]; exact h1)
      exact ⟨c, by rw [hgid]; exact hc⟩
    · exact ih ent (by rw [ha]; exact h2)

/-- Claim C2: the per-group loop yields exactly one `GroupResult` per input
id, in input order (the results are pointwise the per-id `extractGroup` and
their `groupId`s reproduce the input list); a group whose fetch rejects gets
a result carrying the error's string form (non-empty, as collaborator
failures are `Error`-valued per the interface contract, here a hypothesis on
the environment) with both sequences empty and contributes no combined
entries; and every combined entry belongs to a group whose fetch succeeded. -/
theorem c2_orchestrator (env : FetchEnv) (gids : List String)
    (henv : ∀ g e, env.getChatById g = Except.error e → e ≠ "") :
    (extractAll env gids).1 = gids.map (fun g => (extractGroup env g).1) ∧
    (extractAll env gids).1.length = gids.length ∧
    (extractAll env gids).1.map GroupResult.groupId = gids ∧
    (∀ g e, env.getChatById g = Except.error e →
      (extractGroup env g).1 = ⟨g, g, [], [], some e⟩ ∧
      (extractGroup env g).2 = [] ∧ e ≠ "") ∧
    (∀ ent ∈ (extractAll env gids).2, ∃ c, env.getChatById ent.groupId = Except.ok c) := by
  refine ⟨extractAll_fst env gids, ?_, ?_, ?_, extractAll_snd_ok env gids⟩
  · rw [extractAll_fst env gids, List.length_map]
  · rw [extractAll_fst env gids, List.map_map]
    have hcomp : (GroupResult.groupId ∘ fun g => (extractGroup env g).1) = id := by
      funext g
      simp [Function.comp, extractGroup_fst_groupId]
    rw [hcomp, List.map_id]
  · intro g e h
    obtain ⟨h1, h2⟩ := extractGroup_error env g e h
    exact ⟨h1, h2, henv g e h⟩

/-- Witness for C2 at the specification's example shape: `"G1"` fails,
`"G2"` succeeds, and the two results keep the input order. -/
theorem c2_orchestrator_witness :
    (extractAll envW ["G1", "G2"]).1.map GroupResult.groupId = ["G1", "G2"] :=
  (c2_orchestrator envW ["G1", "G2"] (by
    intro g e h
    by_cases hg : g = "G2"
    · simp [envW, hg] at h
    · simp only [envW, if_neg hg, Except.error.injEq] at h
      subst h
      decide)).2.2.1

/-!
## C5 — export validation order
-/

/-- Claim C5, counterexample: with a valid payload and the unsupported
format `"xml"`, the handler does reject the request, but only after
`fs.ensureDir` has already touched the filesystem — the `try` block creates
the export directory *before* dispatching on the format, so the rejection
does not happen before all file I/O. -/
theorem c5_export_counterexample :
    (exportHandler true (some (Json.jarr [Json.jnull])) (some "xml")).1
      = ExportResult.badRequest "Unsupported format" ∧
    (exportHandler true (some (Json.jarr [Json.jnull])) (some "xml")).2
      = [ExportEffect.ensureDir] ∧
    [ExportEffect.ensureDir] ≠ ([] : List ExportEffect) := by
  refine ⟨rfl, rfl, by simp⟩

/-- Claim C5, amended: a payload that is not a non-empty array (absent,
falsy, unparseable when double-encoded, non-array, or the empty array) is
rejected with a 400 before any format dispatch and before any file I/O (the
effect trace is empty, whatever the format argument); an unsupported format
kind is rejected with the unsupported-format error before any export *file*
is written — but after the export-directory creation (`fs.ensureDir`), which
is the only effect in the trace. -/
theorem c5_export_validation_amended :
    (∀ fmt, exportHandler true none fmt = (.badRequest "No payload", [])) ∧
    (∀ p fmt, jsonTruthy p = false →
      exportHandler true (some p) fmt = (.badRequest "No payload", [])) ∧
    (∀ p fmt, jsonTruthy p = true → effectivePayload p = none →
      exportHandler true (some p) fmt = (.badRequest "Invalid payload JSON", [])) ∧
    (∀ p v fmt, jsonTruthy p = true → effectivePayload p = some v →
      (∀ r rs, v ≠ .jarr (r :: rs)) →
      exportHandler true (some p) fmt
        = (.badRequest "Payload must be non-empty array", [])) ∧
    (∀ p r rs fmt, jsonTruthy p = true →
      effectivePayload p = some (.jarr (r :: rs)) →
      effectiveFormat fmt ≠ "csv" → effectiveFormat fmt ≠ "xlsx" →
      effectiveFormat fmt ≠ "json" →
      exportHandler true (some p) fmt
        = (.badRequest "Unsupported format", [.ensureDir])) := by
  refine ⟨fun fmt => rfl, ?_, ?_, ?_, ?_⟩
  · intro p fmt ht
    simp [exportHandler, ht]
  · intro p fmt ht hep
    simp [exportHandler, ht, hep]
  · intro p v fmt ht hep hna
    cases v with
    | jarr elems =>
      cases elems with
      | nil => simp [exportHandler, ht, hep]
      | cons r rs => exact absurd rfl (hna r rs)
    | jnull => simp [exportHandler, ht, hep]
    | jbool b => simp [exportHandler, ht, hep]
    | jstr s => simp [exportHandler, ht, hep]
    | jobj fs => simp [exportHandler, ht, hep]
  · intro p r rs fmt ht hep h1 h2 h3
    simp [exportHandler, ht, hep, h1, h2, h3]

/-- Witness for C5 at concrete inputs: the empty array is rejected with no
effects regardless of format, and a non-array payload likewise. -/
theorem c5_export_validation_witness :
    exportHandler true (some (Json.jarr [])) (some "csv")
      = (.badRequest "Payload must be non-empty array", []) ∧
    exportHandler true (some (Json.jobj [("a", Json.jnull)])) none
      = (.badRequest "Payload must be non-empty array", []) ∧
    exportHandler true none (some "csv") = (.badRequest "No payload", []) := by
  refine ⟨?_, ?_, c5_export_validation_amended.1 (some "csv")⟩
  · exact c5_export_validation_amended.2.2.2.1 (Json.jarr []) (Json.jarr [])
      (some "csv") rfl rfl (fun r rs h => by cases h)
  · exact c5_export_validation_amended.2.2.2.1 (Json.jobj [("a", Json.jnull)])
      (Json.jobj [("a", Json.jnull)]) none rfl rfl (fun r rs h => by cases h)

/-!
## C10 — format defaulting and case-insensitive matching
-/

theorem strToLowerJs_empty {t : String} (h : strToLowerJs t = "") : t = "" := by
  have hd : t.data.map lowerChar = [] := congrArg String.data h
  have ht : t.data = [] := List.map_eq_nil_iff.mp hd
  cases t with
  | mk d =>
    cases ht
    rfl

theorem effectiveFormat_congr {s t : String} (h : strToLowerJs s = strToLowerJs t) :
    effectiveFormat (some s) = effectiveFormat (some t) := by
  by_cases hs : s = ""
  · subst hs
    have ht : t = "" := strToLowerJs_empty h.symm
    subst ht
    rfl
  · by_cases ht : t = ""
    · subst ht
      exact absurd (strToLowerJs_empty h) hs
    · simp [effectiveFormat, hs, ht, h]

theorem exportHandler_format_congr (authed : Bool) (pl : Option Json)
    {f1 f2 : Option String} (h : effectiveFormat f1 = effectiveFormat f2) :
    exportHandler authed pl f1 = exportHandler authed pl f2 := by
  unfold exportHandler
  rw [h]

/-- Claim C10: an absent format behaves exactly as `"csv"`; the format is
matched after lower-casing, so two spellings with the same lower case give
identical behaviour, and `"CSV"`, `"Json"`, `"XLSX"` select the
corresponding formatter rather than failing as unsupported. -/
theorem c10_format_defaulting :
    (∀ authed pl, exportHandler authed pl none = exportHandler authed pl (some "csv")) ∧
    (∀ authed pl s t, strToLowerJs s = strToLowerJs t →
      exportHandler authed pl (some s) = exportHandler authed pl (some t)) ∧
    (exportHandler true (some (Json.jarr [Json.jnull])) (some "CSV")).1
      = ExportResult.download "csv" ∧
    (exportHandler true (some (Json.jarr [Json.jnull])) (some "Json")).1
      = ExportResult.download "json" ∧
    (exportHandler true (some (Json.jarr [Json.jnull])) (some "XLSX")).1
      = ExportResult.download "xlsx" := by
  refine ⟨?_, ?_, rfl, rfl, rfl⟩
  · intro authed pl
    exact exportHandler_format_congr authed pl rfl
  · intro authed pl s t h
    exact exportHandler_format_congr authed pl (effectiveFormat_congr h)

/-- Witness for C10: two spellings of the same format word give the same
response at a concrete payload. -/
theorem c10_format_defaulting_witness :
    exportHandler true (some (Json.jarr [Json.jnull])) (some "CSV")
      = exportHandler true (some (Json.jarr [Json.jnull])) (some "csv") :=
  c10_format_defaulting.2.1 true (some (Json.jarr [Json.jnull])) "CSV" "csv" rfl


/-!
## C7 — the JSON export round-trips

Supporting development: the parser inverts the pretty-printer.
-/

theorem jsonHexVal_hexDigitChar : ∀ n, n < 16 → jsonHexVal (hexDigitChar n) = some n := by
  decide

theorem parseStrBody_escape (c : Char) (rest : List Char) :
    parseStrBody (escapeJsonChar c ++ rest)
      = (match parseStrBody rest with
         | some (cs, r) => some (c :: cs, r)
         | none => none) := by
  unfold escapeJsonChar
  by_cases h1 : c = '"'
  · subst h1
    rw [if_pos rfl]
    conv_lhs => rw [parseStrBody.eq_def]
    simp [jsonUnescape]
  · rw [if_neg h1]
    by_cases h2 : c = '\\'
    · subst h2
      rw [if_pos rfl]
      conv_lhs => rw [parseStrBody.eq_def]
      simp [jsonUnescape]
    · rw [if_neg h2]
      by_cases h3 : c = Char.ofNat 8
      · subst h3
        rw [if_pos rfl]
        conv_lhs => rw [parseStrBody.eq_def]
        simp [jsonUnescape]
      · rw [if_neg h3]
        by_cases h4 : c = Char.ofNat 9
        · subst h4
          rw [if_pos rfl]
          conv_lhs => rw [parseStrBody.eq_def]
          simp [jsonUnescape]
        · rw [if_neg h4]
          by_cases h5 : c = Char.ofNat 10
          · subst h5
            rw [if_pos rfl]
            conv_lhs => rw [parseStrBody.eq_def]
            simp [jsonUnescape]
          · rw [if_neg h5]
            by_cases h6 : c = Char.ofNat 12
            · subst h6
              rw [if_pos rfl]
              conv_lhs => rw [parseStrBody.eq_def]
              simp [jsonUnescape]
            · rw [if_neg h6]
              by_cases h7 : c = Char.ofNat 13
              · subst h7
                rw [if_pos rfl]
                conv_lhs => rw [parseStrBody.eq_def]
                simp [jsonUnescape]
              · rw [if_neg h7]
                by_cases hlt : c.toNat < 32
                · rw [if_pos hlt]
                  have hdiv : c.toNat / 16 < 16 := by omega
                  have hmod : c.toNat % 16 < 16 := by omega
                  have hda := jsonHexVal_hexDigitChar _ hdiv
                  have hmo := jsonHexVal_hexDigitChar _ hmod
                  have hz : jsonHexVal '0' = some 0 := by decide
                  have hcond : ((0 * 16 + 0) * 16 + c.toNat / 16) * 16 + c.toNat % 16 < 55296 ∨
                      (57344 ≤ ((0 * 16 + 0) * 16 + c.toNat / 16) * 16 + c.toNat % 16 ∧
                        ((0 * 16 + 0) * 16 + c.toNat / 16) * 16 + c.toNat % 16 < 1114112) :=
                    Or.inl (by omega)
                  have hchar :
                      Char.ofNat (((0 * 16 + 0) * 16 + c.toNat / 16) * 16 + c.toNat % 16) = c := by
                    rw [show ((0 * 16 + 0) * 16 + c.toNat / 16) * 16 + c.toNat % 16
                        = c.toNat from by omega]
                    exact Char.ofNat_toNat c
                  conv_lhs => rw [parseStrBody.eq_def]
                  simp only [List.cons_append, List.nil_append]
                  simp only [hz, hda, hmo]
                  rw [if_pos hcond, hchar]
                  simp
                · rw [if_neg hlt]
                  conv_lhs => rw [parseStrBody.eq_def]
                  simp [h1, h2]

theorem parseStrBody_escaped :
    ∀ (cs rest : List Char),
      parseStrBody (cs.flatMap escapeJsonChar ++ '"' :: rest) = some (cs, rest) := by
  intro cs
  induction cs with
  | nil =>
    intro rest
    rw [parseStrBody.eq_def]
    simp
  | cons c cs ih =>
    intro rest
    rw [List.flatMap_cons, List.append_assoc, parseStrBody_escape, ih]

theorem jsonSkipWs_cons_nws {c : Char} (h : isWsChar c = false) (t : List Char) :
    jsonSkipWs (c :: t) = c :: t := by
  simp [jsonSkipWs, h]

theorem jsonSkipWs_replicate_space :
    ∀ (k : Nat) (t : List Char), jsonSkipWs (List.replicate k ' ' ++ t) = jsonSkipWs t := by
  intro k
  induction k with
  | zero => intro t; rfl
  | succ n ih =>
    intro t
    simp only [List.replicate_succ, List.cons_append]
    rw [show jsonSkipWs (' ' :: (List.replicate n ' ' ++ t))
        = jsonSkipWs (List.replicate n ' ' ++ t) from by simp [jsonSkipWs, isWsChar]]
    exact ih t

theorem jsonSkipWs_indent (n : Nat) (t : List Char) :
    jsonSkipWs (indentChars n ++ t) = jsonSkipWs t :=
  jsonSkipWs_replicate_space _ t

theorem jsonSkipWs_newline (t : List Char) : jsonSkipWs ('\n' :: t) = jsonSkipWs t := by
  simp [jsonSkipWs, isWsChar]

theorem jsonSkipWs_space (t : List Char) : jsonSkipWs (' ' :: t) = jsonSkipWs t := by
  simp [jsonSkipWs, isWsChar]

theorem stringifyVal_head (ind : Nat) (v : Json) :
    ∃ c t, stringifyVal ind v = c :: t ∧ isWsChar c = false ∧ c ≠ ']' ∧ c ≠ '}' := by
  have key : ∃ c t,
      stringifyVal ind v = c :: t ∧ (isWsChar c || c == ']' || c == '}') = false := by
    match v with
    | .jnull => exact ⟨'n', _, rfl, by decide⟩
    | .jbool true => exact ⟨'t', _, rfl, by decide⟩
    | .jbool false => exact ⟨'f', _, rfl, by decide⟩
    | .jstr s => exact ⟨'"', _, rfl, by decide⟩
    | .jarr [] => exact ⟨'[', _, rfl, by decide⟩
    | .jarr (x :: xs) => exact ⟨'[', _, rfl, by decide⟩
    | .jobj [] => exact ⟨'{', _, rfl, by decide⟩
    | .jobj (g :: gs) => exact ⟨'{', _, rfl, by decide⟩
  obtain ⟨c, t, he, hb⟩ := key
  simp only [Bool.or_eq_false_iff, beq_eq_false_iff_ne] at hb
  exact ⟨c, t, he, hb.1.1, hb.1.2, hb.2⟩

theorem jsonSkipWs_stringifyVal (ind : Nat) (v : Json) (x : List Char) :
    jsonSkipWs (stringifyVal ind v ++ x) = stringifyVal ind v ++ x := by
  obtain ⟨c, t, he, hw, _, _⟩ := stringifyVal_head ind v
  rw [he, List.cons_append, jsonSkipWs_cons_nws hw]

theorem stringifyItems_cons (ind : Nat) (x : Json) (xs : List Json) :
    stringifyItems ind (x :: xs)
      = indentChars ind ++ (stringifyVal ind x ++ itemsTail ind xs) := by
  cases xs with
  | nil => simp [stringifyItems, itemsTail]
  | cons y ys => simp [stringifyItems, itemsTail]

theorem stringifyProps_cons (ind : Nat) (f : String × Json) (fs : List (String × Json)) :
    stringifyProps ind (f :: fs)
      = indentChars ind ++ (stringifyStr f.1 ++ ':' :: ' ' ::
          (stringifyVal ind f.2 ++ propsTail ind fs)) := by
  cases fs with
  | nil => simp [stringifyProps, propsTail]
  | cons g gs => simp [stringifyProps, propsTail]

theorem parseJsonVal_ws_congr (f : Nat) {s1 s2 : List Char}
    (h : jsonSkipWs s1 = jsonSkipWs s2) : parseJsonVal f s1 = parseJsonVal f s2 := by
  cases f with
  | zero => rfl
  | succ f =>
    show (match jsonSkipWs s1 with
          | 'n' :: 'u' :: 'l' :: 'l' :: r => some (Json.jnull, r)
          | 't' :: 'r' :: 'u' :: 'e' :: r => some (Json.jbool true, r)
          | 'f' :: 'a' :: 'l' :: 's' :: 'e' :: r => some (Json.jbool false, r)
          | '"' :: r =>
            match parseStrBody r with
            | some (cs, r2) => some (Json.jstr ⟨cs⟩, r2)
            | none => none
          | '[' :: r =>
            match jsonSkipWs r with
            | [] => none
            | c :: r2 =>
              if c = ']' then some (Json.jarr [], r2)
              else
                match parseJsonItems f (c :: r2) with
                | some (vs, r3) => some (Json.jarr vs, r3)
                | none => none
          | '{' :: r =>
            match jsonSkipWs r with
            | [] => none
            | c :: r2 =>
              if c = '}' then some (Json.jobj [], r2)
              else
                match parseJsonProps f (c :: r2) with
                | some (fs, r3) => some (Json.jobj fs, r3)
                | none => none
          | _ => none) = _
    rw [h]
    rfl

theorem parseJsonItems_ws_congr (f : Nat) {s1 s2 : List Char}
    (h : jsonSkipWs s1 = jsonSkipWs s2) : parseJsonItems f s1 = parseJsonItems f s2 := by
  cases f with
  | zero => rfl
  | succ f =>
    show (match parseJsonVal f s1 with
          | some (v, r) =>
            match jsonSkipWs r with
            | ',' :: r2 =>
              match parseJsonItems f r2 with
              | some (vs, r3) => some (v :: vs, r3)
              | none => none
            | ']' :: r2 => some ([v], r2)
            | _ => none
          | none => none) = _
    rw [parseJsonVal_ws_congr f h]
    rfl

theorem parseJsonProps_ws_congr (f : Nat) {s1 s2 : List Char}
    (h : jsonSkipWs s1 = jsonSkipWs s2) : parseJsonProps f s1 = parseJsonProps f s2 := by
  cases f with
  | zero => rfl
  | succ f =>
    show (match jsonSkipWs s1 with
          | '"' :: r =>
            match parseStrBody r with
            | some (kcs, r1) =>
              match jsonSkipWs r1 with
              | ':' :: r2 =>
                match parseJsonVal f r2 with
                | some (v, r3) =>
                  match jsonSkipWs r3 with
                  | ',' :: r4 =>
                    match parseJsonProps f r4 with
                    | some (fs, r5) => some (((⟨kcs⟩ : String), v) :: fs, r5)
                    | none => none
                  | '}' :: r4 => some ([((⟨kcs⟩ : String), v)], r4)
                  | _ => none
                | none => none
              | _ => none
            | none => none
          | _ => none) = _
    rw [h]
    rfl

theorem parseJsonVal_step_str (f : Nat) (r : List Char) :
    parseJsonVal (f + 1) ('"' :: r)
      = (match parseStrBody r with
         | some (cs, r2) => some (.jstr ⟨cs⟩, r2)
         | none => none) := rfl

theorem parseJsonVal_step_arr (f : Nat) (r : List Char) :
    parseJsonVal (f + 1) ('[' :: r)
      = (match jsonSkipWs r with
         | [] => none
         | c :: r2 =>
           if c = ']' then some (.jarr [], r2)
           else
             match parseJsonItems f (c :: r2) with
             | some (vs, r3) => some (.jarr vs, r3)
             | none => none) := rfl

theorem parseJsonVal_step_obj (f : Nat) (r : List Char) :
    parseJsonVal (f + 1) ('{' :: r)
      = (match jsonSkipWs r with
         | [] => none
         | c :: r2 =>
           if c = '}' then some (.jobj [], r2)
           else
             match parseJsonProps f (c :: r2) with
             | some (fs, r3) => some (.jobj fs, r3)
             | none => none) := rfl

theorem parseJsonVal_step_arr_cons (f : Nat) (r : List Char) (c : Char) (r2 : List Char)
    (hskip : jsonSkipWs r = c :: r2) (hc : c ≠ ']') :
    parseJsonVal (f + 1) ('[' :: r)
      = (match parseJsonItems f (c :: r2) with
         | some (vs, r3) => some (.jarr vs, r3)
         | none => none) := by
  rw [parseJsonVal_step_arr, hskip]
  show (if c = ']' then some (Json.jarr [], r2)
        else
          match parseJsonItems f (c :: r2) with
          | some (vs, r3) => some (Json.jarr vs, r3)
          | none => none) = _
  rw [if_neg hc]

theorem parseJsonVal_step_obj_cons (f : Nat) (r : List Char) (c : Char) (r2 : List Char)
    (hskip : jsonSkipWs r = c :: r2) (hc : c ≠ '}') :
    parseJsonVal (f + 1) ('{' :: r)
      = (match parseJsonProps f (c :: r2) with
         | some (fs, r3) => some (.jobj fs, r3)
         | none => none) := by
  rw [parseJsonVal_step_obj, hskip]
  show (if c = '}' then some (Json.jobj [], r2)
        else
          match parseJsonProps f (c :: r2) with
          | some (fs, r3) => some (Json.jobj fs, r3)
          | none => none) = _
  rw [if_neg hc]

theorem parseJsonItems_step (f : Nat) (s : List Char) :
    parseJsonItems (f + 1) s
      = (match parseJsonVal f s with
         | some (v, r) =>
           match jsonSkipWs r with
           | ',' :: r2 =>
             match parseJsonItems f r2 with
             | some (vs, r3) => some (v :: vs, r3)
             | none => none
           | ']' :: r2 => some ([v], r2)
           | _ => none
         | none => none) := rfl

theorem parseJsonProps_step (f : Nat) (s : List Char) :
    parseJsonProps (f + 1) s
      = (match jsonSkipWs s with
         | '"' :: r =>
           match parseStrBody r with
           | some (kcs, r1) =>
             match jsonSkipWs r1 with
             | ':' :: r2 =>
               match parseJsonVal f r2 with
               | some (v, r3) =>
                 match jsonSkipWs r3 with
                 | ',' :: r4 =>
                   match parseJsonProps f r4 with
                   | some (fs, r5) => some ((⟨kcs⟩, v) :: fs, r5)
                   | none => none
                 | '}' :: r4 => some ([(⟨kcs⟩, v)], r4)
                 | _ => none
               | none => none
             | _ => none
           | none => none
         | _ => none) := rfl

theorem length_itemsTail_cons (ind : Nat) (y : Json) (ys : List Json) :
    (itemsTail ind (y :: ys)).length = (stringifyItems ind (y :: ys)).length + 2 := by
  simp [itemsTail]

theorem length_propsTail_cons (ind : Nat) (g : String × Json) (gs : List (String × Json)) :
    (propsTail ind (g :: gs)).length = (stringifyProps ind (g :: gs)).length + 2 := by
  simp [propsTail]

theorem length_stringifyItems_cons (ind : Nat) (x : Json) (xs : List Json) :
    (stringifyItems ind (x :: xs)).length
      = 2 * ind + (stringifyVal ind x).length + (itemsTail ind xs).length := by
  rw [stringifyItems_cons]
  simp only [List.length_append, indentChars, List.length_replicate]
  omega

theorem length_stringifyProps_cons (ind : Nat) (kv : String × Json)
    (fs : List (String × Json)) :
    (stringifyProps ind (kv :: fs)).length
      = 2 * ind + (stringifyStr kv.1).length + 2 + (stringifyVal ind kv.2).length
        + (propsTail ind fs).length := by
  rw [stringifyProps_cons]
  simp only [List.length_append, List.length_cons, indentChars, List.length_replicate]
  omega

theorem length_stringifyVal_arr (ind : Nat) (x : Json) (xs : List Json) :
    (stringifyVal ind (Json.jarr (x :: xs))).length
      = (stringifyItems (ind + 1) (x :: xs)).length + 2 * ind + 4 := by
  show ('[' :: '\n' ::
      (stringifyItems (ind + 1) (x :: xs) ++ '\n' :: (indentChars ind ++ [']']))).length = _
  simp only [List.length_cons, List.length_append, indentChars, List.length_replicate,
    List.length_singleton, List.length_nil]
  omega

theorem length_stringifyVal_obj (ind : Nat) (kv : String × Json)
    (fs : List (String × Json)) :
    (stringifyVal ind (Json.jobj (kv :: fs))).length
      = (stringifyProps (ind + 1) (kv :: fs)).length + 2 * ind + 4 := by
  show ('{' :: '\n' ::
      (stringifyProps (ind + 1) (kv :: fs) ++ '\n' :: (indentChars ind ++ ['}']))).length = _
  simp only [List.length_cons, List.length_append, indentChars, List.length_replicate,
    List.length_singleton, List.length_nil]
  omega

theorem rt_json : ∀ fuel : Nat,
    (∀ (v : Json) (ind : Nat) (rest : List Char),
      (stringifyVal ind v).length < fuel →
      parseJsonVal fuel (stringifyVal ind v ++ rest) = some (v, rest)) ∧
    (∀ (x : Json) (xs : List Json) (ind outInd : Nat) (rest : List Char),
      (stringifyItems ind (x :: xs)).length + 1 < fuel →
      parseJsonItems fuel
        (stringifyVal ind x ++ (itemsTail ind xs ++
          '\n' :: (indentChars outInd ++ ']' :: rest)))
        = some (x :: xs, rest)) ∧
    (∀ (kv : String × Json) (fs : List (String × Json)) (ind outInd : Nat)
        (rest : List Char),
      (stringifyProps ind (kv :: fs)).length + 1 < fuel →
      parseJsonProps fuel
        ('"' :: (kv.1.data.flatMap escapeJsonChar ++ '"' :: ':' :: ' ' ::
          (stringifyVal ind kv.2 ++ (propsTail ind fs ++
            '\n' :: (indentChars outInd ++ '}' :: rest)))))
        = some (kv :: fs, rest)) := by
  intro fuel
  induction fuel with
  | zero =>
    refine ⟨?_, ?_, ?_⟩
    · intro v ind rest h; omega
    · intro x xs ind outInd rest h; omega
    · intro kv fs ind outInd rest h; omega
  | succ f ih =>
    obtain ⟨ihv, ihi, ihp⟩ := ih
    refine ⟨?_, ?_, ?_⟩
    · -- parseJsonVal inverts stringifyVal
      intro v ind rest h
      cases v with
      | jnull => rfl
      | jbool b => cases b with | true => rfl | false => rfl
      | jstr s =>
        have harg : stringifyVal ind (.jstr s) ++ rest
            = '"' :: (s.data.flatMap escapeJsonChar ++ '"' :: rest) := by
          simp [stringifyVal, stringifyStr]
        rw [harg, parseJsonVal_step_str, parseStrBody_escaped]
      | jarr es =>
        cases es with
        | nil => rfl
        | cons x xs =>
          have hlen := length_stringifyVal_arr ind x xs
          have harg : stringifyVal ind (Json.jarr (x :: xs)) ++ rest
              = '[' :: ('\n' :: (stringifyItems (ind + 1) (x :: xs) ++
                  ('\n' :: (indentChars ind ++ ']' :: rest)))) := by
            show ('[' :: '\n' :: (stringifyItems (ind + 1) (x :: xs) ++
              '\n' :: (indentChars ind ++ [']']))) ++ rest = _
            simp [List.cons_append, List.append_assoc]
          obtain ⟨c, t, hhead, hw, hbr, _⟩ := stringifyVal_head (ind + 1) x
          have hskip0 : jsonSkipWs ('\n' :: (stringifyItems (ind + 1) (x :: xs) ++
                  ('\n' :: (indentChars ind ++ ']' :: rest))))
              = stringifyVal (ind + 1) x ++ (itemsTail (ind + 1) xs ++
                  '\n' :: (indentChars ind ++ ']' :: rest)) := by
            rw [jsonSkipWs_newline, stringifyItems_cons, List.append_assoc,
              jsonSkipWs_indent, List.append_assoc]
            exact jsonSkipWs_stringifyVal _ _ _
          have hskip : jsonSkipWs ('\n' :: (stringifyItems (ind + 1) (x :: xs) ++
                  ('\n' :: (indentChars ind ++ ']' :: rest))))
              = c :: (t ++ (itemsTail (ind + 1) xs ++
                  '\n' :: (indentChars ind ++ ']' :: rest))) := by
            rw [hskip0, hhead, List.cons_append]
          rw [harg, parseJsonVal_step_arr_cons f _ c _ hskip hbr,
            ← List.cons_append, ← hhead,
            ihi x xs (ind + 1) ind rest (by omega)]
      | jobj fs =>
        cases fs with
        | nil => rfl
        | cons kv fs0 =>
          have hlen := length_stringifyVal_obj ind kv fs0
          have harg : stringifyVal ind (Json.jobj (kv :: fs0)) ++ rest
              = '{' :: ('\n' :: (stringifyProps (ind + 1) (kv :: fs0) ++
                  ('\n' :: (indentChars ind ++ '}' :: rest)))) := by
            show ('{' :: '\n' :: (stringifyProps (ind + 1) (kv :: fs0) ++
              '\n' :: (indentChars ind ++ ['}']))) ++ rest = _
            simp [List.cons_append, List.append_assoc]
          have hskip : jsonSkipWs ('\n' :: (stringifyProps (ind + 1) (kv :: fs0) ++
                  ('\n' :: (indentChars ind ++ '}' :: rest))))
              = '"' :: (kv.1.data.flatMap escapeJsonChar ++ '"' :: ':' :: ' ' ::
                  (stringifyVal (ind + 1) kv.2 ++ (propsTail (ind + 1) fs0 ++
                    '\n' :: (indentChars ind ++ '}' :: rest)))) := by
            rw [jsonSkipWs_newline, stringifyProps_cons, List.append_assoc,
              jsonSkipWs_indent]
            simp only [stringifyStr, List.cons_append, List.append_assoc,
              List.singleton_append, List.nil_append]
            rw [jsonSkipWs_cons_nws (by decide)]
          rw [harg, parseJsonVal_step_obj_cons f _ '"' _ hskip (by decide),
            ihp kv fs0 (ind + 1) ind rest (by omega)]
    · -- parseJsonItems inverts a non-empty element listing
      intro x xs ind outInd rest h
      have hlen := length_stringifyItems_cons ind x xs
      rw [parseJsonItems_step,
        ihv x ind (itemsTail ind xs ++ '\n' :: (indentChars outInd ++ ']' :: rest))
          (by omega)]
      show (match jsonSkipWs (itemsTail ind xs ++
              '\n' :: (indentChars outInd ++ ']' :: rest)) with
            | ',' :: r2 =>
              match parseJsonItems f r2 with
              | some (vs, r3) => some (x :: vs, r3)
              | none => none
            | ']' :: r2 => some ([x], r2)
            | _ => none) = some (x :: xs, rest)
      cases xs with
      | nil =>
        rw [show itemsTail ind ([] : List Json) = [] from rfl, List.nil_append,
          jsonSkipWs_newline, jsonSkipWs_indent, jsonSkipWs_cons_nws (by decide)]
        rfl
      | cons y ys =>
        have htl := length_itemsTail_cons ind y ys
        rw [show itemsTail ind (y :: ys) = ',' :: '\n' :: stringifyItems ind (y :: ys)
            from rfl, List.cons_append, List.cons_append,
          jsonSkipWs_cons_nws (by decide)]
        show (match parseJsonItems f ('\n' :: (stringifyItems ind (y :: ys) ++
                '\n' :: (indentChars outInd ++ ']' :: rest))) with
              | some (vs, r3) => some (x :: vs, r3)
              | none => none) = some (x :: y :: ys, rest)
        have hcg : parseJsonItems f ('\n' :: (stringifyItems ind (y :: ys) ++
                '\n' :: (indentChars outInd ++ ']' :: rest)))
            = parseJsonItems f (stringifyVal ind y ++ (itemsTail ind ys ++
                '\n' :: (indentChars outInd ++ ']' :: rest))) := by
          apply parseJsonItems_ws_congr
          rw [jsonSkipWs_newline, stringifyItems_cons, List.append_assoc,
            jsonSkipWs_indent, List.append_assoc, jsonSkipWs_stringifyVal]
        rw [hcg, ihi y ys ind outInd rest (by omega)]
    · -- parseJsonProps inverts a non-empty member listing
      intro kv fs ind outInd rest h
      have hlen := length_stringifyProps_cons ind kv fs
      rw [parseJsonProps_step, jsonSkipWs_cons_nws (by decide)]
      show (match parseStrBody (kv.1.data.flatMap escapeJsonChar ++ '"' :: ':' :: ' ' ::
              (stringifyVal ind kv.2 ++ (propsTail ind fs ++
                '\n' :: (indentChars outInd ++ '}' :: rest)))) with
            | some (kcs, r1) =>
              match jsonSkipWs r1 with
              | ':' :: r2 =>
                match parseJsonVal f r2 with
                | some (v, r3) =>
                  match jsonSkipWs r3 with
                  | ',' :: r4 =>
                    match parseJsonProps f r4 with
                    | some (fs2, r5) => some (((⟨kcs⟩ : String), v) :: fs2, r5)
                    | none => none
                  | '}' :: r4 => some ([((⟨kcs⟩ : String), v)], r4)
                  | _ => none
                | none => none
              | _ => none
            | none => none) = some (kv :: fs, rest)
      rw [parseStrBody_escaped]
      show (match jsonSkipWs (':' :: ' ' :: (stringifyVal ind kv.2 ++ (propsTail ind fs ++
              '\n' :: (indentChars outInd ++ '}' :: rest)))) with
            | ':' :: r2 =>
              match parseJsonVal f r2 with
              | some (v, r3) =>
                match jsonSkipWs r3 with
                | ',' :: r4 =>
                  match parseJsonProps f r4 with
                  | some (fs2, r5) => some ((kv.1, v) :: fs2, r5)
                  | none => none
                | '}' :: r4 => some ([(kv.1, v)], r4)
                | _ => none
              | none => none
            | _ => none) = some (kv :: fs, rest)
      rw [jsonSkipWs_cons_nws (by decide)]
      show (match parseJsonVal f (' ' :: (stringifyVal ind kv.2 ++ (propsTail ind fs ++
              '\n' :: (indentChars outInd ++ '}' :: rest)))) with
            | some (v, r3) =>
              match jsonSkipWs r3 with
              | ',' :: r4 =>
                match parseJsonProps f r4 with
                | some (fs2, r5) => some ((kv.1, v) :: fs2, r5)
                | none => none
              | '}' :: r4 => some ([(kv.1, v)], r4)
              | _ => none
            | none => none) = some (kv :: fs, rest)
      have hv : parseJsonVal f (' ' :: (stringifyVal ind kv.2 ++ (propsTail ind fs ++
              '\n' :: (indentChars outInd ++ '}' :: rest))))
          = parseJsonVal f (stringifyVal ind kv.2 ++ (propsTail ind fs ++
              '\n' :: (indentChars outInd ++ '}' :: rest))) := by
        apply parseJsonVal_ws_congr
        rw [jsonSkipWs_space]
      rw [hv, ihv kv.2 ind _ (by omega)]
      show (match jsonSkipWs (propsTail ind fs ++
              '\n' :: (indentChars outInd ++ '}' :: rest)) with
            | ',' :: r4 =>
              match parseJsonProps f r4 with
              | some (fs2, r5) => some ((kv.1, kv.2) :: fs2, r5)
              | none => none
            | '}' :: r4 => some ([(kv.1, kv.2)], r4)
            | _ => none) = some (kv :: fs, rest)
      cases fs with
      | nil =>
        rw [show propsTail ind ([] : List (String × Json)) = [] from rfl,
          List.nil_append, jsonSkipWs_newline, jsonSkipWs_indent,
          jsonSkipWs_cons_nws (by decide)]
        rfl
      | cons g gs =>
        have htl := length_propsTail_cons ind g gs
        rw [show propsTail ind (g :: gs) = ',' :: '\n' :: stringifyProps ind (g :: gs)
            from rfl, List.cons_append, List.cons_append,
          jsonSkipWs_cons_nws (by decide)]
        show (match parseJsonProps f ('\n' :: (stringifyProps ind (g :: gs) ++
                '\n' :: (indentChars outInd ++ '}' :: rest))) with
              | some (fs2, r5) => some ((kv.1, kv.2) :: fs2, r5)
              | none => none) = some (kv :: g :: gs, rest)
        have hcg : parseJsonProps f ('\n' :: (stringifyProps ind (g :: gs) ++
                '\n' :: (indentChars outInd ++ '}' :: rest)))
            = parseJsonProps f ('"' :: (g.1.data.flatMap escapeJsonChar ++ '"' :: ':' :: ' ' ::
                (stringifyVal ind g.2 ++ (propsTail ind gs ++
                  '\n' :: (indentChars outInd ++ '}' :: rest))))) := by
          apply parseJsonProps_ws_congr
          rw [jsonSkipWs_newline, stringifyProps_cons, List.append_assoc,
            jsonSkipWs_indent]
          simp only [stringifyStr, List.cons_append, List.append_assoc,
            List.singleton_append, List.nil_append]
        rw [hcg, ihp g gs ind outInd rest (by omega)]

theorem jsonParse_stringify2 (v : Json) : jsonParse (jsonStringify2 v) = some v := by
  have h := (rt_json ((stringifyVal 0 v).length + 1)).1 v 0 [] (Nat.lt_succ_self _)
  rw [List.append_nil] at h
  show (match parseJsonVal ((stringifyVal 0 v).length + 1) (stringifyVal 0 v) with
        | some (w, r) => if jsonSkipWs r = [] then some w else none
        | none => none) = some v
  rw [h]
  rfl

/-- Claim C7: exporting a valid (non-empty array) payload as `"json"` writes
exactly `JSON.stringify(payload, null, 2)` (after the directory ensure), and
parsing that artifact yields precisely the payload again (deep equality of
the parsed JSON structure). -/
theorem c7_json_roundtrip (rows : List Json) (h : rows ≠ []) :
    exportHandler true (some (Json.jarr rows)) (some "json")
      = (.download "json", [.ensureDir, .writeJson (jsonStringify2 (.jarr rows))]) ∧
    jsonParse (jsonStringify2 (Json.jarr rows)) = some (Json.jarr rows) := by
  constructor
  · cases rows with
    | nil => exact absurd rfl h
    | cons r rs => rfl
  · exact jsonParse_stringify2 (Json.jarr rows)

/-- Witness for C7 at a concrete one-row payload shaped like an
`ExtractionEntry`, via the claim theorem. -/
theorem c7_json_roundtrip_witness :
    jsonParse (jsonStringify2 (Json.jarr exportRowsW)) = some (Json.jarr exportRowsW) :=
  (c7_json_roundtrip exportRowsW (by unfold exportRowsW; exact List.cons_ne_nil _ _)).2
